import Mathlib

/-!
# Verification of the `setup-npm-github` credential-setup command

This file gives a shallow embedding, in Lean 4, of the decision-making core of
`packages/toolkit-cli/bin/setup-npm-github.js`: argument parsing, token
acquisition, the shell-profile (rc file) idempotent update, the `.npmrc`
merge-and-replace logic, and the verification stage, together with the whole
sequential main flow as a pure state-transition function over an explicit
world (rc file, `.npmrc`, credential vault) and an effect trace.

JavaScript strings are modelled as `List Char`; the JS string operations used
by the script (`startsWith`, `endsWith`, `includes`, `split`, `join`, `trim`,
`toLowerCase`) are defined below and named with an `L` suffix or a `js`
before. JS `trim`/`toLowerCase` are modelled on the ASCII range, which covers
every character the script compares against.
-/

namespace SetupNpmGithub

set_option maxRecDepth 10000
set_option maxHeartbeats 2000000

/-- JavaScript strings, modelled as lists of characters. -/
abbrev Str := List Char

/-- Coerce a Lean string literal into the `List Char` model. -/
def str (s : String) : Str := s.data

/-- JS `s.startsWith(p)` : `p` is a prefix of `s` (arguments: pattern, string). -/
def startsWithL : Str → Str → Bool
  | [], _ => true
  | _ :: _, [] => false
  | p :: ps, c :: cs => p = c && startsWithL ps cs

/-- JS `s.endsWith(p)` : `p` is a suffix of `s` (arguments: pattern, string). -/
def endsWithL (p s : Str) : Bool := startsWithL p.reverse s.reverse

/-- JS `s.includes(c)` for a single-character needle. -/
def hasChar (c : Char) (s : Str) : Bool := s.any (fun x => x = c)

/-- JS `s.includes(p)` : `p` occurs as a contiguous substring of `s`. -/
def jsIncludes (p s : Str) : Bool := s.tails.any (fun t => startsWithL p t)

/-- Number of start positions at which `p` occurs as a substring of `s`. -/
def countOcc (p s : Str) : Nat := s.tails.countP (fun t => startsWithL p t)

/-- JS `s.split(sep)` for a single-character separator: the result is always
nonempty, and empty fields are kept (`"a==b".split("=") = ["a","","b"]`,
`"".split("=") = [""]`). -/
def jsSplit (sep : Char) : Str → List Str
  | [] => [[]]
  | c :: cs =>
    match jsSplit sep cs with
    | [] => [[c]]
    | h :: t => if c = sep then [] :: h :: t else (c :: h) :: t

/-- JS `arr.join(sep)` for a single-character separator. -/
def jsJoin (sep : Char) : List Str → Str
  | [] => []
  | [l] => l
  | l :: l' :: ls => l ++ sep :: jsJoin sep (l' :: ls)

/-- ASCII whitespace recognised by the model of JS `trim`. -/
def isJsSpace (c : Char) : Bool :=
  c = ' ' || c = '\t' || c = '\n' || c = '\r' || c = '\x0b' || c = '\x0c'

/-- JS `s.trim()` (ASCII whitespace model). -/
def jsTrim (s : Str) : Str :=
  ((s.dropWhile isJsSpace).reverse.dropWhile isJsSpace).reverse

/-- JS `s.toLowerCase()` (ASCII model). -/
def toLowerL (s : Str) : Str :=
  s.map (fun c => if 'A' ≤ c && c ≤ 'Z' then Char.ofNat (c.toNat + 32) else c)

/-! ## Lemmas about the string primitives -/

theorem startsWithL_iff (p s : Str) : startsWithL p s = true ↔ ∃ t, s = p ++ t := by
  induction p generalizing s with
  | nil => simp [startsWithL]
  | cons x xs ih =>
    cases s with
    | nil => simp [startsWithL]
    | cons c cs =>
      simp only [startsWithL, Bool.and_eq_true, decide_eq_true_eq, ih]
      constructor
      · rintro ⟨rfl, t, rfl⟩; exact ⟨t, rfl⟩
      · rintro ⟨t, h⟩
        injection h with h1 h2
        exact ⟨h1.symm, t, h2⟩

theorem startsWithL_length {p s : Str} (h : startsWithL p s = true) :
    p.length ≤ s.length := by
  obtain ⟨t, rfl⟩ := (startsWithL_iff p s).mp h
  simp

theorem startsWithL_refl (p : Str) : startsWithL p p = true :=
  (startsWithL_iff p p).mpr ⟨[], by simp⟩

theorem jsIncludes_cons (p : Str) (c : Char) (s : Str) :
    jsIncludes p (c :: s) = (startsWithL p (c :: s) || jsIncludes p s) := by
  simp [jsIncludes, List.tails_cons]

theorem jsIncludes_iff (p s : Str) : jsIncludes p s = true ↔ ∃ u v, s = u ++ p ++ v := by
  induction s with
  | nil =>
    simp only [jsIncludes]
    rw [show ([] : Str).tails = [[]] from rfl]
    simp only [List.any_cons, List.any_nil, Bool.or_false]
    rw [startsWithL_iff]
    constructor
    · rintro ⟨t, h⟩; exact ⟨[], t, by simpa using h⟩
    · rintro ⟨u, v, h⟩
      have hu : u = [] := by
        cases u with
        | nil => rfl
        | cons a b => simp at h
      subst hu
      exact ⟨v, by simpa using h⟩
  | cons c cs ih =>
    rw [jsIncludes_cons, Bool.or_eq_true, ih, startsWithL_iff]
    constructor
    · rintro (⟨t, h⟩ | ⟨u, v, h⟩)
      · exact ⟨[], t, by simpa using h⟩
      · exact ⟨c :: u, v, by simp [h]⟩
    · rintro ⟨u, v, h⟩
      cases u with
      | nil => exact Or.inl ⟨v, by simpa using h⟩
      | cons a b =>
        injection h with h1 h2
        exact Or.inr ⟨b, v, h2⟩

/-- If `p` occurs in `d`, it occurs in any extension `u ++ d ++ w`. -/
theorem jsIncludes_extend {p d : Str} (h : jsIncludes p d = true) (u w : Str) :
    jsIncludes p (u ++ d ++ w) = true := by
  obtain ⟨a, b, rfl⟩ := (jsIncludes_iff p d).mp h
  exact (jsIncludes_iff p _).mpr ⟨u ++ a, b ++ w, by simp⟩

theorem jsSplit_ne_nil (sep : Char) (s : Str) : jsSplit sep s ≠ [] := by
  cases s with
  | nil => simp [jsSplit]
  | cons c cs =>
    simp only [jsSplit]
    split
    · simp
    · split <;> simp

/-- Equation lemma for `jsSplit` on a cons cell. -/
theorem jsSplit_cons (sep c : Char) (cs : Str) :
    jsSplit sep (c :: cs) =
      if c = sep then [] :: jsSplit sep cs
      else (c :: (jsSplit sep cs).headD []) :: (jsSplit sep cs).tail := by
  obtain ⟨h', t, h⟩ := List.exists_cons_of_ne_nil (jsSplit_ne_nil sep cs)
  simp only [jsSplit, h]
  simp

theorem jsSplit_append_cons (sep : Char) (xs ys : Str) :
    jsSplit sep (xs ++ sep :: ys) = jsSplit sep xs ++ jsSplit sep ys := by
  induction xs with
  | nil =>
    rw [List.nil_append, jsSplit_cons, if_pos rfl]
    rfl
  | cons x xs ih =>
    rw [List.cons_append, jsSplit_cons, ih, jsSplit_cons]
    obtain ⟨h', t, h⟩ := List.exists_cons_of_ne_nil (jsSplit_ne_nil sep xs)
    rw [h]
    by_cases hx : x = sep
    · rw [if_pos hx, if_pos hx]
      simp
    · rw [if_neg hx, if_neg hx]
      simp

theorem jsSplit_of_not_hasChar {sep : Char} {s : Str} (h : hasChar sep s = false) :
    jsSplit sep s = [s] := by
  induction s with
  | nil => simp [jsSplit]
  | cons c cs ih =>
    simp only [hasChar, List.any_cons, Bool.or_eq_false_iff, decide_eq_false_iff_not] at h
    rw [jsSplit_cons, if_neg h.1, ih (by simpa [hasChar] using h.2)]
    rfl

theorem hasChar_of_mem_jsSplit {sep : Char} {s l : Str} (h : l ∈ jsSplit sep s) :
    hasChar sep l = false := by
  induction s generalizing l with
  | nil =>
    simp only [jsSplit, List.mem_singleton] at h
    subst h; rfl
  | cons c cs ih =>
    rw [jsSplit_cons] at h
    obtain ⟨h', t, h2⟩ := List.exists_cons_of_ne_nil (jsSplit_ne_nil sep cs)
    rw [h2] at h
    by_cases hc : c = sep
    · rw [if_pos hc] at h
      rcases List.mem_cons.mp h with h3 | h3
      · subst h3; rfl
      · exact ih (h2.symm ▸ h3)
    · rw [if_neg hc] at h
      rcases List.mem_cons.mp h with h3 | h3
      · subst h3
        have hh : hasChar sep h' = false := ih (h2.symm ▸ List.mem_cons_self h' t)
        simp only [List.headD_cons, hasChar, List.any_cons, Bool.or_eq_false_iff,
          decide_eq_false_iff_not]
        exact ⟨hc, by simpa [hasChar] using hh⟩
      · refine ih (h2.symm ▸ ?_)
        exact List.mem_cons_of_mem h' (by simpa using h3)

theorem jsJoin_jsSplit (sep : Char) (s : Str) : jsJoin sep (jsSplit sep s) = s := by
  induction s with
  | nil => simp [jsSplit, jsJoin]
  | cons c cs ih =>
    rw [jsSplit_cons]
    obtain ⟨h', t, h⟩ := List.exists_cons_of_ne_nil (jsSplit_ne_nil sep cs)
    rw [h] at ih ⊢
    by_cases hc : c = sep
    · rw [if_pos hc, hc]
      cases t with
      | nil => simpa [jsJoin] using ih
      | cons a b => simpa [jsJoin] using ih
    · rw [if_neg hc]
      cases t with
      | nil => simpa [jsJoin] using ih
      | cons a b => simpa [jsJoin] using ih

theorem jsSplit_jsJoin {sep : Char} {ls : List Str} (hne : ls ≠ [])
    (h : ∀ l ∈ ls, hasChar sep l = false) :
    jsSplit sep (jsJoin sep ls) = ls := by
  induction ls with
  | nil => exact absurd rfl hne
  | cons l ls ih =>
    cases ls with
    | nil =>
      simp only [jsJoin]
      exact jsSplit_of_not_hasChar (h l (List.mem_cons_self l []))
    | cons m ms =>
      have step : jsJoin sep (l :: m :: ms) = l ++ sep :: jsJoin sep (m :: ms) := rfl
      rw [step, jsSplit_append_cons,
        jsSplit_of_not_hasChar (h l (List.mem_cons_self l (m :: ms))),
        ih (by simp) (fun x hx => h x (List.mem_cons_of_mem l hx))]
      rfl

theorem countOcc_cons (p : Str) (c : Char) (s : Str) :
    countOcc p (c :: s) = countOcc p s + (if startsWithL p (c :: s) then 1 else 0) := by
  simp [countOcc, List.tails_cons, List.countP_cons]

/-! ## Argument parsing (`parseArgs`, final refactored version, lines 531–552)

JS object values produced by the parser are either strings or the boolean
`true`; `ArgVal` models that union.  The JS object is modelled as an
association list in assignment order; `lookupArg` returns the last
assignment for a key, matching JS property overwrite semantics. -/

inductive ArgVal where
  | strV (s : Str)
  | flagTrue
deriving DecidableEq, Repr

/-- JS truthiness of `parsed[k]` (absent property reads as `undefined`). -/
def truthy : Option ArgVal → Bool
  | some (.strV s) => !s.isEmpty
  | some .flagTrue => true
  | none => false

/-- Last assignment wins, as for JS object property writes. -/
def lookupArg (ps : List (Str × ArgVal)) (k : Str) : Option ArgVal :=
  ps.foldl (fun acc p => if p.1 = k then some p.2 else acc) none

/-- `parseArgs` from the final version of the script (the two earlier
versions contain the identical loop inline).  The input list is
`process.argv.slice(2)`.  Tokens not starting with `--` are skipped;
`--k=v` splits on `=` and rejoins the tail; bare `--k` consumes the next
token as its value only when that token is truthy (non-empty) and does not
itself start with `--`, and otherwise stores boolean `true`. -/
def parseArgs : List Str → List (Str × ArgVal)
  | [] => []
  | a :: rest =>
    if startsWithL (str "--") a = false then parseArgs rest
    else if hasChar '=' a then
      let parts := jsSplit '=' (a.drop 2)
      (parts.headD [], .strV (jsJoin '=' parts.tail)) :: parseArgs rest
    else
      match rest with
      | [] => (a.drop 2, .flagTrue) :: parseArgs []
      | next :: rest2 =>
        if !next.isEmpty && startsWithL (str "--") next = false then
          (a.drop 2, .strV next) :: parseArgs rest2
        else
          (a.drop 2, .flagTrue) :: parseArgs (next :: rest2)

def ORG_DEFAULT : Str := str "yolotechnology"

/-- `parsed.org || ORG_DEFAULT`, flattened through its later use in template
literals: the boolean `true` interpolates as the text "true". -/
def orgOf (ps : List (Str × ArgVal)) : Str :=
  match lookupArg ps (str "org") with
  | some (.strV s) => if s.isEmpty then ORG_DEFAULT else s
  | some .flagTrue => str "true"
  | none => ORG_DEFAULT

/-- `Boolean(parsed['dry-run'])`. -/
def dryRunOf (ps : List (Str × ArgVal)) : Bool :=
  truthy (lookupArg ps (str "dry-run"))

/-- `parsed.token || ''` (an empty-string value and an absent key both
yield the empty string; a bare flag stays the boolean `true`). -/
def tokenArgOf (ps : List (Str × ArgVal)) : ArgVal :=
  match lookupArg ps (str "token") with
  | some (.strV s) => .strV s
  | some .flagTrue => .flagTrue
  | none => .strV []

/-- `parsed.help || parsed.h` coerced to a boolean. -/
def helpTruthyOf (ps : List (Str × ArgVal)) : Bool :=
  truthy (lookupArg ps (str "help")) || truthy (lookupArg ps (str "h"))

/-! ## Registry config (`.npmrc`) writer (`setupNpmrc`, lines 707–777) -/

def registryLine (org : Str) : Str :=
  '@' :: org ++ str ":registry=https://npm.pkg.github.com"

def authTokenLine : Str := str "//npm.pkg.github.com/:_authToken=${NPM_TOKEN}"

def npmrcLines (org : Str) : List Str := [registryLine org, authTokenLine]

/-- `npmrcLines.join('\n') + '\n'` — the fresh-file content.  The first two
versions of the script write this same two-line content unconditionally. -/
def npmrcContent (org : Str) : Str := jsJoin '\n' (npmrcLines org) ++ str "\n"

/-- `line.endsWith(':registry=https://npm.pkg.github.com')`. -/
def isStaleRegistry (line : Str) : Bool :=
  endsWithL (str ":registry=https://npm.pkg.github.com") line

/-- `line.startsWith('//npm.pkg.github.com/:_authToken=')`. -/
def isStaleAuth (line : Str) : Bool :=
  startsWithL (str "//npm.pkg.github.com/:_authToken=") line

/-- `existingContent.split('\n').filter(line => line.trim() !== '')`. -/
def existingLinesOf (content : Str) : List Str :=
  (jsSplit '\n' content).filter (fun l => !(jsTrim l).isEmpty)

/-- The filter keeping a line in the merge (neither recognized pattern). -/
def keepLine (l : Str) : Bool := !(isStaleRegistry l) && !(isStaleAuth l)

def filteredLinesOf (content : Str) : List Str :=
  (existingLinesOf content).filter keepLine

/-- `existingLines.includes(registryLine) && existingLines.includes(authTokenLine)`. -/
def bothPresentB (org content : Str) : Bool :=
  (existingLinesOf content).contains (registryLine org) &&
    (existingLinesOf content).contains authTokenLine

/-- `[...filteredLines, ...npmrcLines].join('\n') + '\n'`. -/
def updatedNpmrc (org content : Str) : Str :=
  jsJoin '\n' (filteredLinesOf content ++ npmrcLines org) ++ str "\n"

/-- The content transformation `setupNpmrc` applies to an existing `.npmrc`
on a non-dry-run run: skip (leave the file as is) when both desired lines
are already present verbatim among the non-blank lines, otherwise rewrite
with the filtered lines followed by the two desired lines. -/
def setupNpmrcUpdate (org content : Str) : Str :=
  if bothPresentB org content then content else updatedNpmrc org content

/-- Resulting `.npmrc` content of a non-dry-run run of the final version:
fresh two-line file when the file does not exist, merge-and-replace (or
skip) when it does. -/
def npmrcResult (org : Str) (existing : Option Str) : Str :=
  match existing with
  | none => npmrcContent org
  | some c => setupNpmrcUpdate org c

/-- The `.npmrc` content produced by the first (and identically the second)
version of the script, which calls `fs.writeFileSync` with the two desired
lines regardless of what the file previously contained. -/
def npmrcResultV1 (org : Str) (_existing : Option Str) : Str := npmrcContent org

/-! ## Shell profile (rc file) updater (`hasKeychainLoader`/`setupRcFile`,
lines 655–704) -/

def KEYCHAIN_SERVICE : Str := str "GITHUB_PACKAGES_NPM_TOKEN"

def securityCmdMarker : Str := str "security find-generic-password"

def KEYCHAIN_LOADER_SCRIPT : Str :=
  str "# Load GitHub Packages token from macOS Keychain\nexport NPM_TOKEN=\"$(security find-generic-password -a \"$USER\" -s GITHUB_PACKAGES_NPM_TOKEN -w 2>/dev/null)\""

/-- The exact text appended to the rc file: `` `\n${KEYCHAIN_LOADER_SCRIPT}\n` ``. -/
def loaderAppend : Str := str "\n" ++ KEYCHAIN_LOADER_SCRIPT ++ str "\n"

/-- `rcContent.includes(KEYCHAIN_SERVICE) && rcContent.includes('security find-generic-password')`. -/
def hasKeychainLoader (rcContent : Str) : Bool :=
  jsIncludes KEYCHAIN_SERVICE rcContent && jsIncludes securityCmdMarker rcContent

/-- The content transformation one non-dry-run run of `setupRcFile` applies
to the rc file content (a missing file is first created empty). -/
def setupRcContent (c : Str) : Str :=
  if hasKeychainLoader c then c else c ++ loaderAppend

/-! ## Token acquisition (`getToken`, lines 624–637) -/

/-- Outcome of `getToken`: a token, the `fatal` exit on an empty trimmed
token, or the uncaught `TypeError` raised by `true.trim()` when the parser
stored the boolean `true` for `--token`. -/
inductive TokenRes where
  | ok (t : Str)
  | fatalEmpty
  | typeErr
deriving DecidableEq, Repr

def getToken (tokenArg : ArgVal) (dryRun : Bool) (hiddenInput : Str) : TokenRes :=
  match tokenArg with
  | .flagTrue => .typeErr
  | .strV s =>
    if !s.isEmpty then
      if (jsTrim s).isEmpty then .fatalEmpty else .ok (jsTrim s)
    else if dryRun then .ok (str "DRY_RUN_TOKEN")
    else if (jsTrim hiddenInput).isEmpty then .fatalEmpty else .ok (jsTrim hiddenInput)

/-- `confirmPrompt` result: `(answer || '').trim().toLowerCase()` equals
`y` or `yes`. -/
def confirmOk (answer : Str) : Bool :=
  toLowerL (jsTrim answer) = str "y" || toLowerL (jsTrim answer) = str "yes"

/-! ## Verifier (`getKeychainToken`/`validateNpm`, lines 790–845) -/

/-- `getKeychainToken`: the trimmed stdout of the `security` read when that
command succeeds, else `process.env.NPM_TOKEN || ''`.  `vaultReadResult`
is `none` when the external command throws. -/
def getKeychainToken (vaultReadResult : Option Str) (npmTokenEnv : Option Str) : Str :=
  match vaultReadResult with
  | some s => jsTrim s
  | none => npmTokenEnv.getD []

/-! ## The whole flow as a state-transition function

The world holds the three external artifacts the script can mutate; the
effect trace records every mutation and every external command, with all
console output abstracted as `Effect.log`.  File-system primitives
(`mkdirSync`, `writeFileSync`, `appendFileSync`) are modelled as succeeding;
the fallible external interactions (keychain write and read, `npm whoami`,
home-directory writability) are driven by explicit inputs. -/

inductive RcPath where
  | zshrc
  | bashrc
  | bashProfile
deriving DecidableEq, Repr

structure Env where
  isDarwin : Bool
  shellName : Str
  bashrcExists : Bool
  npmTokenEnv : Option Str
deriving DecidableEq, Repr

structure World where
  rc : Option Str
  npmrc : Option Str
  vault : Option Str
deriving DecidableEq, Repr

structure Inputs where
  hiddenInput : Str
  confirmAnswer : Str
  vaultWriteOk : Bool
  homeWritable : Bool
  vaultReadResult : Option Str
  whoamiResult : Option Str
deriving DecidableEq, Repr

inductive Effect where
  | log
  | vaultWrite (token : Str)
  | rcCreate
  | rcAppend (s : Str)
  | npmrcWrite (s : Str)
  | vaultRead
  | execWhoami
deriving DecidableEq, Repr

inductive ExitKind where
  | exit (code : Nat)
  | typeError
deriving DecidableEq, Repr

/-- `detectRcFile`: `zsh` maps to `~/.zshrc`; `bash` prefers `~/.bashrc`
when it exists, else `~/.bash_profile`; any other shell yields `''`
(modelled as `none`), which `setupRcFile` treats as fatal. -/
def detectRcFile (env : Env) : Option RcPath :=
  if env.shellName = str "zsh" then some .zshrc
  else if env.shellName = str "bash" then
    some (if env.bashrcExists then .bashrc else .bashProfile)
  else none

/-- `saveTokenToKeychain`. -/
def saveTokenStage (dryRun : Bool) (vaultWriteOk : Bool) (token : Str) (w : World) :
    World × List Effect × Option ExitKind :=
  if dryRun then (w, [.log], none)
  else if vaultWriteOk then ({ w with vault := some token }, [.vaultWrite token, .log], none)
  else (w, [.vaultWrite token, .log], some (.exit 1))

/-- `setupRcFile`. -/
def setupRcStage (env : Env) (dryRun : Bool) (w : World) :
    World × List Effect × Option ExitKind :=
  match detectRcFile env with
  | none => (w, [.log, .log], some (.exit 1))
  | some _ =>
    let created : World × List Effect :=
      match w.rc with
      | none => if dryRun then (w, [.log]) else ({ w with rc := some [] }, [.rcCreate, .log])
      | some _ => (w, [])
    let w1 := created.1
    let rcContent := w1.rc.getD []
    if hasKeychainLoader rcContent then (w1, created.2 ++ [.log], none)
    else if dryRun then (w1, created.2 ++ [.log, .log], none)
    else ({ w1 with rc := some (setupRcContent rcContent) },
      created.2 ++ [.rcAppend loaderAppend, .log], none)

/-- `setupNpmrc`. -/
def setupNpmrcStage (org : Str) (dryRun : Bool) (homeWritable : Bool) (w : World) :
    World × List Effect × Option ExitKind :=
  if dryRun then (w, [.log, .log, .log, .log], none)
  else if !homeWritable then (w, [.log], some (.exit 1))
  else
    match w.npmrc with
    | none => ({ w with npmrc := some (npmrcContent org) },
        [.npmrcWrite (npmrcContent org), .log], none)
    | some c =>
      if bothPresentB org c then (w, [.log], none)
      else ({ w with npmrc := some (updatedNpmrc org c) },
        [.npmrcWrite (updatedNpmrc org c), .log], none)

/-- `validateNpm` (including `getKeychainToken`). -/
def validateStage (dryRun : Bool) (inp : Inputs) (env : Env) :
    List Effect × ExitKind :=
  if dryRun then ([.log, .log], .exit 0)
  else if (getKeychainToken inp.vaultReadResult env.npmTokenEnv).isEmpty then
    ([.vaultRead, .log], .exit 1)
  else
    match inp.whoamiResult with
    | some r =>
      if !(jsTrim r).isEmpty then ([.vaultRead, .execWhoami, .log, .log], .exit 0)
      else ([.vaultRead, .execWhoami, .log], .exit 1)
    | none => ([.vaultRead, .execWhoami, .log], .exit 1)

/-- The whole script on `argv = process.argv.slice(2)`: the platform guard,
the module-level parse and help short-circuit, then `main()`. -/
def runScript (argv : List Str) (env : Env) (w : World) (inp : Inputs) :
    World × List Effect × ExitKind :=
  if !env.isDarwin then (w, [.log], .exit 1)
  else if helpTruthyOf (parseArgs argv) then (w, [.log], .exit 0)
  else
    match getToken (tokenArgOf (parseArgs argv)) (dryRunOf (parseArgs argv))
        inp.hiddenInput with
    | .typeErr => (w, [], .typeError)
    | .fatalEmpty => (w, [.log], .exit 1)
    | .ok token =>
      if !(dryRunOf (parseArgs argv)) && !(confirmOk inp.confirmAnswer) then
        (w, [.log], .exit 0)
      else
        match saveTokenStage (dryRunOf (parseArgs argv)) inp.vaultWriteOk token w with
        | (w1, tr1, some k) => (w1, tr1, k)
        | (w1, tr1, none) =>
          match setupRcStage env (dryRunOf (parseArgs argv)) w1 with
          | (w2, tr2, some k) => (w2, tr1 ++ tr2, k)
          | (w2, tr2, none) =>
            match setupNpmrcStage (orgOf (parseArgs argv)) (dryRunOf (parseArgs argv))
                inp.homeWritable w2 with
            | (w3, tr3, some k) => (w3, tr1 ++ tr2 ++ tr3, k)
            | (w3, tr3, none) =>
              (w3, tr1 ++ tr2 ++ tr3 ++ [.log] ++
                (validateStage (dryRunOf (parseArgs argv)) inp env).1,
                (validateStage (dryRunOf (parseArgs argv)) inp env).2)

/-! ## General helper lemmas -/

theorem hasChar_append (c : Char) (x y : Str) :
    hasChar c (x ++ y) = (hasChar c x || hasChar c y) := by
  simp [hasChar]

theorem endsWithL_append (p x : Str) : endsWithL p (x ++ p) = true := by
  unfold endsWithL
  rw [List.reverse_append]
  exact (startsWithL_iff _ _).mpr ⟨x.reverse, rfl⟩

theorem lookupArg_singleton (a k : Str) (x : ArgVal) :
    lookupArg [(a, x)] k = if a = k then some x else none := rfl

/-! ## Lemmas about the rc-file loader block -/

theorem jsIncludes_append_left {p d : Str} (h : jsIncludes p d = true) (u : Str) :
    jsIncludes p (u ++ d) = true := by
  have := jsIncludes_extend h u []
  simpa using this

/-- Both marker substrings occur in the appended loader text. -/
theorem markers_in_loader :
    jsIncludes KEYCHAIN_SERVICE loaderAppend = true ∧
      jsIncludes securityCmdMarker loaderAppend = true := by decide

theorem hasKeychainLoader_after_append (c : Str) :
    hasKeychainLoader (c ++ loaderAppend) = true := by
  unfold hasKeychainLoader
  rw [jsIncludes_append_left markers_in_loader.1 c,
    jsIncludes_append_left markers_in_loader.2 c]
  rfl

theorem setupRcContent_of_present {c : Str} (h : hasKeychainLoader c = true) :
    setupRcContent c = c := by
  unfold setupRcContent
  rw [h]
  rfl

theorem setupRcContent_iterate_of_present {c : Str} (h : hasKeychainLoader c = true)
    (k : Nat) : setupRcContent^[k] c = c := by
  induction k with
  | zero => rfl
  | succ k ih => rw [Function.iterate_succ_apply, setupRcContent_of_present h, ih]

/-- The only internal period of the loader text that would let an occurrence
of it straddle the boundary of `c ++ loaderAppend` forces both marker
substrings to appear in the part lying inside `c`.  Checked by computation
on the concrete 158-character loader text. -/
theorem loader_border_fact : ∀ m, m < loaderAppend.length → 1 ≤ m →
    loaderAppend.drop m = loaderAppend.take (loaderAppend.length - m) →
    (jsIncludes KEYCHAIN_SERVICE (loaderAppend.take m) &&
      jsIncludes securityCmdMarker (loaderAppend.take m)) = true := by decide

/-- If the rc content lacks the markers, no occurrence of the loader text in
`c ++ loaderAppend` can start strictly inside `c`. -/
theorem no_straddling_occurrence {c : Str} (h : hasKeychainLoader c = false) :
    ∀ d, (∃ u, c = u ++ d) → d ≠ [] →
      startsWithL loaderAppend (d ++ loaderAppend) = false := by
  intro d hd hne
  by_contra hsw
  rw [Bool.not_eq_false] at hsw
  obtain ⟨t, ht⟩ := (startsWithL_iff _ _).mp hsw
  obtain ⟨u, rfl⟩ := hd
  set L := loaderAppend.length with hL
  have hmarks : jsIncludes KEYCHAIN_SERVICE (u ++ d) = true ∧
      jsIncludes securityCmdMarker (u ++ d) = true := by
    by_cases hm : L ≤ d.length
    · -- the loader text lies entirely inside `d`
      have htake : (d ++ loaderAppend).take L = d.take L := by
        rw [List.take_append_eq_append_take, Nat.sub_eq_zero_of_le hm,
          List.take_zero, List.append_nil]
      have htake2 : (loaderAppend ++ t).take L = loaderAppend := by
        rw [List.take_append_eq_append_take, Nat.sub_self, List.take_zero,
          List.append_nil, hL, List.take_length]
      have hdL : d.take L = loaderAppend := by rw [← htake, ht, htake2]
      have hd2 : d = loaderAppend ++ d.drop L := by
        conv_lhs => rw [← List.take_append_drop L d, hdL]
      constructor
      · have h5 := jsIncludes_extend markers_in_loader.1 u (d.drop L)
        rw [List.append_assoc, ← hd2] at h5
        exact h5
      · have h5 := jsIncludes_extend markers_in_loader.2 u (d.drop L)
        rw [List.append_assoc, ← hd2] at h5
        exact h5
    · -- the occurrence straddles the boundary: `d` is a prefix of the loader
      push_neg at hm
      have htake : (d ++ loaderAppend).take d.length = d := List.take_left d loaderAppend
      have htake2 : (loaderAppend ++ t).take d.length = loaderAppend.take d.length := by
        rw [List.take_append_eq_append_take, Nat.sub_eq_zero_of_le (le_of_lt hm),
          List.take_zero, List.append_nil]
      have hdpre : d = loaderAppend.take d.length := by
        conv_lhs => rw [← htake]
        rw [ht, htake2]
      have hdrop : (d ++ loaderAppend).drop d.length = loaderAppend :=
        List.drop_left d loaderAppend
      have hdrop2 : (loaderAppend ++ t).drop d.length =
          loaderAppend.drop d.length ++ t := by
        rw [List.drop_append_eq_append_drop, Nat.sub_eq_zero_of_le (le_of_lt hm),
          List.drop_zero]
      have hsplit : loaderAppend = loaderAppend.drop d.length ++ t := by
        conv_lhs => rw [← hdrop]
        rw [ht, hdrop2]
      have hlen : (loaderAppend.drop d.length).length = L - d.length := by
        rw [List.length_drop]
      have hborder : loaderAppend.drop d.length = loaderAppend.take (L - d.length) := by
        have h6 := congrArg (List.take (L - d.length)) hsplit
        rw [List.take_append_eq_append_take, hlen, Nat.sub_self, List.take_zero,
          List.append_nil, List.take_of_length_le (le_of_eq hlen)] at h6
        exact h6.symm
      have h1 : 1 ≤ d.length := by
        cases d with
        | nil => exact absurd rfl hne
        | cons a b => simp
      have hfact := loader_border_fact d.length hm h1 hborder
      rw [Bool.and_eq_true] at hfact
      have hk1 : jsIncludes KEYCHAIN_SERVICE d = true := by rw [hdpre]; exact hfact.1
      have hk2 : jsIncludes securityCmdMarker d = true := by rw [hdpre]; exact hfact.2
      exact ⟨jsIncludes_append_left hk1 u, jsIncludes_append_left hk2 u⟩
  unfold hasKeychainLoader at h
  rw [hmarks.1, hmarks.2] at h
  exact absurd h (by simp)

/-- If no occurrence of `p` starts strictly inside `c`, the occurrence count
in `c ++ p` equals the count in `p` alone. -/
theorem countOcc_append_of_no_overlap (p c : Str)
    (hno : ∀ d, (∃ u, c = u ++ d) → d ≠ [] → startsWithL p (d ++ p) = false) :
    countOcc p (c ++ p) = countOcc p p := by
  induction c with
  | nil => rw [List.nil_append]
  | cons x c ih =>
    have hx : startsWithL p ((x :: c) ++ p) = false :=
      hno (x :: c) ⟨[], rfl⟩ (by simp)
    rw [List.cons_append, countOcc_cons, ← List.cons_append, hx]
    simp only [Bool.false_eq_true, if_false, Nat.add_zero]
    exact ih (fun d hd hne => hno d (by obtain ⟨u, hu⟩ := hd; exact ⟨x :: u, by rw [hu]; rfl⟩) hne)

theorem countOcc_loader_self : countOcc loaderAppend loaderAppend = 1 := by decide

/-! ## Lemmas about the `.npmrc` merge -/

/-- Splitting a joined line list followed by a final newline recovers the
lines plus one trailing empty field, provided the lines are newline-free
and the list is nonempty. -/
theorem jsSplit_joined_lines {ls : List Str} (hne : ls ≠ [])
    (h : ∀ l ∈ ls, hasChar '\n' l = false) :
    jsSplit '\n' (jsJoin '\n' ls ++ str "\n") = ls ++ [[]] := by
  have : jsJoin '\n' ls ++ str "\n" = jsJoin '\n' ls ++ '\n' :: [] := rfl
  rw [this, jsSplit_append_cons, jsSplit_jsJoin hne h]
  rfl

theorem mem_filteredLines_no_newline {content l : Str}
    (h : l ∈ filteredLinesOf content) : hasChar '\n' l = false := by
  unfold filteredLinesOf existingLinesOf at h
  exact hasChar_of_mem_jsSplit (List.mem_of_mem_filter (List.mem_of_mem_filter h))

theorem registryLine_no_newline {org : Str} (h : hasChar '\n' org = false) :
    hasChar '\n' (registryLine org) = false := by
  unfold registryLine
  rw [show ('@' :: org) = ['@'] ++ org from rfl, List.append_assoc,
    hasChar_append, hasChar_append, h]
  decide

theorem authTokenLine_no_newline : hasChar '\n' authTokenLine = false := by decide

theorem updatedNpmrc_lines (org content : Str) (horg : hasChar '\n' org = false) :
    jsSplit '\n' (updatedNpmrc org content) =
      filteredLinesOf content ++ [registryLine org, authTokenLine, []] := by
  have hne : filteredLinesOf content ++ npmrcLines org ≠ [] := by simp [npmrcLines]
  have hnl : ∀ l ∈ filteredLinesOf content ++ npmrcLines org,
      hasChar '\n' l = false := by
    intro l hl
    rcases List.mem_append.mp hl with hl | hl
    · exact mem_filteredLines_no_newline hl
    · simp only [npmrcLines, List.mem_cons, List.not_mem_nil, or_false] at hl
      rcases hl with rfl | rfl
      · exact registryLine_no_newline horg
      · exact authTokenLine_no_newline
  unfold updatedNpmrc
  rw [jsSplit_joined_lines hne hnl]
  simp [npmrcLines]

theorem isStaleRegistry_registryLine (org : Str) :
    isStaleRegistry (registryLine org) = true := by
  unfold isStaleRegistry registryLine
  exact endsWithL_append _ _

theorem isStaleAuth_registryLine (org : Str) :
    isStaleAuth (registryLine org) = false := by
  unfold isStaleAuth registryLine
  rw [show str "//npm.pkg.github.com/:_authToken=" =
    '/' :: str "/npm.pkg.github.com/:_authToken=" from rfl]
  simp [startsWithL]

theorem keepLine_counts {content : Str} :
    ((filteredLinesOf content).countP (fun l => isStaleRegistry l) = 0) ∧
      ((filteredLinesOf content).countP (fun l => isStaleAuth l) = 0) := by
  constructor <;>
  · rw [List.countP_eq_zero]
    intro l hl
    have hk : keepLine l = true := List.of_mem_filter hl
    unfold keepLine at hk
    rw [Bool.and_eq_true] at hk
    simp only [Bool.not_eq_true'] at hk
    simp [hk.1, hk.2]

/-! ## The claims -/

/-- C1 (corrected).  One non-dry-run run of `setupNpmrc` on an existing
registry config file, *provided the file does not already contain both
desired lines verbatim among its non-blank lines* (otherwise the update is
skipped and the file is left untouched), produces a file whose line
decomposition is: the original non-blank lines that match neither directive
pattern, preserved verbatim in their original relative order, followed by
the scope-to-registry line for the configured organization and the
auth-token line as the final two lines (plus the empty field produced by
the trailing newline).  Blank (whitespace-only) lines are dropped by the
merge. -/
theorem npmrc_merge_correctness (org content : Str)
    (horg : hasChar '\n' org = false)
    (hskip : bothPresentB org content = false) :
    jsSplit '\n' (setupNpmrcUpdate org content) =
      (existingLinesOf content).filter keepLine ++
        [registryLine org, authTokenLine, []] := by
  unfold setupNpmrcUpdate
  rw [hskip]
  simpa [filteredLinesOf] using updatedNpmrc_lines org content horg

theorem npmrc_merge_correctness_witness :
    jsSplit '\n' (setupNpmrcUpdate ORG_DEFAULT
        (str "registry=https://registry.npmjs.org\n@old:registry=https://npm.pkg.github.com\n")) =
      (existingLinesOf
          (str "registry=https://registry.npmjs.org\n@old:registry=https://npm.pkg.github.com\n")).filter
          keepLine ++
        [registryLine ORG_DEFAULT, authTokenLine, []] :=
  npmrc_merge_correctness ORG_DEFAULT _ (by decide) (by decide)

/-- C1 counterexample to the claim as frozen: a file that already contains
both desired lines verbatim *and* a stale scope-to-registry line for the
same registry host is left completely unchanged by one non-dry-run run
(the skip branch fires), so the stale line is not removed and the two
desired lines are not the final two lines. -/
theorem npmrc_merge_claim_counterexample :
    setupNpmrcUpdate ORG_DEFAULT
        (str "@yolotechnology:registry=https://npm.pkg.github.com\n@other:registry=https://npm.pkg.github.com\n//npm.pkg.github.com/:_authToken=${NPM_TOKEN}\n") =
      str "@yolotechnology:registry=https://npm.pkg.github.com\n@other:registry=https://npm.pkg.github.com\n//npm.pkg.github.com/:_authToken=${NPM_TOKEN}\n" ∧
    isStaleRegistry (str "@other:registry=https://npm.pkg.github.com") = true ∧
    str "@other:registry=https://npm.pkg.github.com" ∈
      jsSplit '\n' (setupNpmrcUpdate ORG_DEFAULT
        (str "@yolotechnology:registry=https://npm.pkg.github.com\n@other:registry=https://npm.pkg.github.com\n//npm.pkg.github.com/:_authToken=${NPM_TOKEN}\n")) ∧
    str "@other:registry=https://npm.pkg.github.com" ≠ registryLine ORG_DEFAULT ∧
    str "@other:registry=https://npm.pkg.github.com" ≠ authTokenLine := by
  refine ⟨by decide, by decide, by decide, by decide, by decide⟩

/-- C2 (corrected).  After every non-dry-run run of `setupNpmrc` that does
not hit the skip branch (the file was absent, or it did not already contain
both desired lines verbatim), the registry config file contains exactly one
line matching the scope-to-registry pattern — namely the line for the
configured organization — and exactly one line matching the auth-token
pattern — namely the line referencing `${NPM_TOKEN}` rather than a literal
secret. -/
theorem npmrc_post_run_invariant (org : Str) (existing : Option Str)
    (horg : hasChar '\n' org = false)
    (hskip : ∀ c, existing = some c → bothPresentB org c = false) :
    ((jsSplit '\n' (npmrcResult org existing)).countP
        (fun l => isStaleRegistry l) = 1) ∧
    ((jsSplit '\n' (npmrcResult org existing)).countP
        (fun l => isStaleAuth l) = 1) ∧
    registryLine org ∈ jsSplit '\n' (npmrcResult org existing) ∧
    authTokenLine ∈ jsSplit '\n' (npmrcResult org existing) ∧
    endsWithL (str "${NPM_TOKEN}") authTokenLine = true := by
  have key : jsSplit '\n' (npmrcResult org existing) =
      (match existing with
        | none => ([] : List Str)
        | some c => filteredLinesOf c) ++ [registryLine org, authTokenLine, []] := by
    match existing with
    | none =>
      show jsSplit '\n' (npmrcContent org) = [] ++ [registryLine org, authTokenLine, []]
      have h0 : npmrcContent org = updatedNpmrc org [] := by
        unfold npmrcContent updatedNpmrc filteredLinesOf existingLinesOf
        rfl
      rw [h0, updatedNpmrc_lines org [] horg]
      rfl
    | some c =>
      show jsSplit '\n' (setupNpmrcUpdate org c) = _
      unfold setupNpmrcUpdate
      rw [hskip c rfl]
      exact updatedNpmrc_lines org c horg
  rw [key]
  have hreg := isStaleRegistry_registryLine org
  have hauthreg := isStaleAuth_registryLine org
  have htail1 : ([registryLine org, authTokenLine, ([] : Str)]).countP
      (fun l => isStaleRegistry l) = 1 := by
    simp [List.countP_cons, hreg]
    decide
  have htail2 : ([registryLine org, authTokenLine, ([] : Str)]).countP
      (fun l => isStaleAuth l) = 1 := by
    simp [List.countP_cons, hauthreg]
    decide
  cases existing with
  | none =>
    simp only [List.countP_append, List.nil_append]
    exact ⟨by simpa using htail1, by simpa using htail2, by simp, by simp, by decide⟩
  | some c =>
    simp only [List.countP_append]
    exact ⟨by rw [keepLine_counts.1, htail1], by rw [keepLine_counts.2, htail2],
      by simp, by simp, by decide⟩

theorem npmrc_post_run_invariant_witness :
    ((jsSplit '\n' (npmrcResult ORG_DEFAULT none)).countP
        (fun l => isStaleRegistry l) = 1) ∧
    ((jsSplit '\n' (npmrcResult ORG_DEFAULT none)).countP
        (fun l => isStaleAuth l) = 1) ∧
    registryLine ORG_DEFAULT ∈ jsSplit '\n' (npmrcResult ORG_DEFAULT none) ∧
    authTokenLine ∈ jsSplit '\n' (npmrcResult ORG_DEFAULT none) ∧
    endsWithL (str "${NPM_TOKEN}") authTokenLine = true :=
  npmrc_post_run_invariant ORG_DEFAULT none (by decide) (fun c h => by cases h)

/-- C2 counterexample to the claim as frozen: a pre-existing file containing
the desired scope-to-registry line twice (plus the auth line) makes the skip
branch fire, so after the run the file still contains two scope-to-registry
lines for the configured organization, not exactly one. -/
theorem npmrc_post_run_invariant_counterexample :
    setupNpmrcUpdate ORG_DEFAULT
        (str "@yolotechnology:registry=https://npm.pkg.github.com\n@yolotechnology:registry=https://npm.pkg.github.com\n//npm.pkg.github.com/:_authToken=${NPM_TOKEN}\n") =
      str "@yolotechnology:registry=https://npm.pkg.github.com\n@yolotechnology:registry=https://npm.pkg.github.com\n//npm.pkg.github.com/:_authToken=${NPM_TOKEN}\n" ∧
    ((jsSplit '\n' (setupNpmrcUpdate ORG_DEFAULT
        (str "@yolotechnology:registry=https://npm.pkg.github.com\n@yolotechnology:registry=https://npm.pkg.github.com\n//npm.pkg.github.com/:_authToken=${NPM_TOKEN}\n"))).countP
        (fun l => isStaleRegistry l)) = 2 := by
  refine ⟨by decide, by decide⟩

/-- C9 (corrected).  The registry-config stages of the three script versions
are *not* behaviorally equivalent in general; they agree exactly on the
degenerate inputs where the merge has nothing to preserve: the file is
absent, or every non-blank line of the pre-existing content matches one of
the two recognized directive patterns and the skip branch does not fire.
(The first two versions share the identical unconditional two-line
`writeFileSync`; `npmrcResultV1` models both.) -/
theorem npmrc_versions_agree_on_stale_only (org : Str) (existing : Option Str)
    (h : ∀ c, existing = some c →
      ((∀ l ∈ existingLinesOf c, (isStaleRegistry l || isStaleAuth l) = true) ∧
        bothPresentB org c = false)) :
    npmrcResult org existing = npmrcResultV1 org existing := by
  cases existing with
  | none => rfl
  | some c =>
    obtain ⟨hall, hskip⟩ := h c rfl
    show setupNpmrcUpdate org c = npmrcContent org
    unfold setupNpmrcUpdate
    rw [hskip]
    unfold updatedNpmrc npmrcContent
    have hfil : filteredLinesOf c = [] := by
      unfold filteredLinesOf
      rw [List.filter_eq_nil_iff]
      intro l hl
      have := hall l hl
      unfold keepLine
      rw [Bool.or_eq_true] at this
      rcases this with h1 | h1 <;> simp [h1]
    rw [hfil]
    rfl

theorem npmrc_versions_agree_witness :
    npmrcResult ORG_DEFAULT
        (some (str "@old:registry=https://npm.pkg.github.com\n")) =
      npmrcResultV1 ORG_DEFAULT
        (some (str "@old:registry=https://npm.pkg.github.com\n")) :=
  npmrc_versions_agree_on_stale_only ORG_DEFAULT _
    (fun c h => by cases h; exact ⟨by decide, by decide⟩)

/-- C9 counterexample to the claim as frozen: on a pre-existing file with an
unrelated line, the first version overwrites the file with exactly the two
desired lines while the final version preserves the unrelated line, so the
resulting contents differ. -/
theorem npmrc_versions_counterexample :
    npmrcResult ORG_DEFAULT (some (str "registry=https://registry.npmjs.org\n")) ≠
      npmrcResultV1 ORG_DEFAULT (some (str "registry=https://registry.npmjs.org\n")) := by
  decide

/-- C6 (corrected).  Parsing `--key=value` and `--key value` yields the same
resulting config value for the key, for every key and every *value that is
non-empty and does not itself start with `--`*.  (An empty or `--`-prefixed
value is not consumed by the space-separated form, which stores boolean
`true` instead.) -/
theorem arg_forms_agree (k v : Str) (hv : v ≠ [])
    (hpre : startsWithL (str "--") v = false) :
    lookupArg (parseArgs [str "--" ++ k ++ '=' :: v]) k =
      lookupArg (parseArgs [str "--" ++ k, v]) k := by
  have e1 : str "--" ++ k ++ '=' :: v = '-' :: '-' :: (k ++ '=' :: v) := rfl
  have e2 : str "--" ++ k = '-' :: '-' :: k := rfl
  rw [e1, e2]
  have sw1 : startsWithL (str "--") ('-' :: '-' :: (k ++ '=' :: v)) = true := rfl
  have sw2 : startsWithL (str "--") ('-' :: '-' :: k) = true := rfl
  have hc1 : hasChar '=' ('-' :: '-' :: (k ++ '=' :: v)) = true := by
    simp [hasChar]
  have hv' : v.isEmpty = false := by cases v with
    | nil => exact absurd rfl hv
    | cons a b => rfl
  by_cases hk : hasChar '=' k = true
  · -- the key itself contains '=': both forms assign to a shorter key
    have hc2 : hasChar '=' ('-' :: '-' :: k) = true := by
      simp only [hasChar, List.any_cons] at hk ⊢
      simp [hk]
    obtain ⟨h0, t0, hsk⟩ := List.exists_cons_of_ne_nil (jsSplit_ne_nil '=' k)
    have hmem : h0 ∈ jsSplit '=' k := by rw [hsk]; exact List.mem_cons_self _ _
    have hh0 : hasChar '=' h0 = false := hasChar_of_mem_jsSplit hmem
    have hne : h0 ≠ k := by
      intro he
      rw [he, hk] at hh0
      simp at hh0
    simp only [parseArgs, sw1, sw2, hc1, hc2, if_true, Bool.false_eq_true,
      Bool.true_eq_false, if_false, List.drop_succ_cons, List.drop_zero, hpre]
    rw [jsSplit_append_cons, hsk]
    simp only [List.cons_append, List.headD_cons, if_true]
    simp [lookupArg_singleton, hne]
  · -- ordinary key without '=': both forms store the value string
    rw [Bool.not_eq_true] at hk
    have hc2 : hasChar '=' ('-' :: '-' :: k) = false := by
      simp only [hasChar, List.any_cons] at hk ⊢
      simp [hk]
    simp only [parseArgs, sw1, sw2, hc1, hc2, if_true, Bool.false_eq_true,
      Bool.true_eq_false, if_false, List.drop_succ_cons, List.drop_zero, hv', hpre,
      Bool.not_false, Bool.true_and, decide_eq_true_eq]
    rw [jsSplit_append_cons, jsSplit_of_not_hasChar hk]
    simp [lookupArg_singleton, jsJoin_jsSplit]

theorem arg_forms_agree_witness :
    lookupArg (parseArgs [str "--" ++ str "org" ++ '=' :: str "acme"]) (str "org") =
      lookupArg (parseArgs [str "--" ++ str "org", str "acme"]) (str "org") :=
  arg_forms_agree (str "org") (str "acme") (by decide) (by decide)

/-- C6 counterexample to the claim as frozen: for the key `token` and the
empty value, `--token=` stores the empty string while `--token` followed by
an empty argument stores boolean `true`, so the two argument forms disagree. -/
theorem arg_forms_counterexample :
    lookupArg (parseArgs [str "--token="]) (str "token") ≠
      lookupArg (parseArgs [str "--token", str ""]) (str "token") := by
  decide

/-- C3 (corrected).  The shell profile updater is append-only and
idempotent, with the idempotency guard being the *marker substrings*, not
the loader block itself: any number (at least one) of successive runs on a
content that lacks the markers appends the fixed loader snippet exactly
once, at the end, leaving all pre-existing content unchanged; a content
that already passes the marker check — even one that does not actually
contain the loader block — is never written at all. -/
theorem shell_profile_updater_idempotent (c : Str) (n : Nat) (hn : 1 ≤ n) :
    (hasKeychainLoader c = true → setupRcContent^[n] c = c) ∧
    (hasKeychainLoader c = false →
      setupRcContent^[n] c = c ++ loaderAppend ∧
      countOcc loaderAppend (setupRcContent^[n] c) = 1) := by
  obtain ⟨m, rfl⟩ : ∃ m, n = m + 1 := ⟨n - 1, by omega⟩
  constructor
  · intro h
    exact setupRcContent_iterate_of_present h (m + 1)
  · intro h
    have hstep : setupRcContent c = c ++ loaderAppend := by
      unfold setupRcContent
      rw [h]
      rfl
    have hiter : setupRcContent^[m + 1] c = c ++ loaderAppend := by
      rw [Function.iterate_succ_apply, hstep,
        setupRcContent_iterate_of_present (hasKeychainLoader_after_append c) m]
    refine ⟨hiter, ?_⟩
    rw [hiter, countOcc_append_of_no_overlap loaderAppend c (no_straddling_occurrence h),
      countOcc_loader_self]

theorem shell_profile_updater_idempotent_witness :
    setupRcContent^[2] (str "export PATH=/usr/local/bin:$PATH") =
      str "export PATH=/usr/local/bin:$PATH" ++ loaderAppend ∧
    countOcc loaderAppend
        (setupRcContent^[2] (str "export PATH=/usr/local/bin:$PATH")) = 1 :=
  (shell_profile_updater_idempotent (str "export PATH=/usr/local/bin:$PATH") 2
    (by decide)).2 (by decide)

/-- C3 counterexample to the claim as frozen: a content that contains both
marker substrings but not the loader block passes the guard, so the updater
never writes it and the file ends up containing the loader block zero
times, not exactly once. -/
theorem shell_profile_updater_counterexample :
    hasKeychainLoader
        (str "# talks about security find-generic-password and GITHUB_PACKAGES_NPM_TOKEN") = true ∧
    setupRcContent
        (str "# talks about security find-generic-password and GITHUB_PACKAGES_NPM_TOKEN") =
      str "# talks about security find-generic-password and GITHUB_PACKAGES_NPM_TOKEN" ∧
    countOcc loaderAppend
        (str "# talks about security find-generic-password and GITHUB_PACKAGES_NPM_TOKEN") = 0 := by
  refine ⟨by decide, by decide, by decide⟩

/-- Helper: a dry run of the rc-file stage leaves the world unchanged and
emits only log output. -/
theorem setupRcStage_dry (env : Env) (w : World) :
    (setupRcStage env true w).1 = w ∧
      ∀ e ∈ (setupRcStage env true w).2.1, e = Effect.log := by
  unfold setupRcStage
  cases hdet : detectRcFile env with
  | none => simp
  | some p =>
    cases hrc : w.rc with
    | none =>
      simp only [hrc, if_true]
      simp [show hasKeychainLoader [] = false from by decide]
    | some s =>
      simp only [hrc]
      by_cases hl : hasKeychainLoader s = true
      · simp [hl]
      · rw [Bool.not_eq_true] at hl
        simp [hl]

/-- C4 (confirmed).  A `--dry-run` invocation with no explicit `--token`
leaves all three external artifacts (credential vault, rc file, `.npmrc`)
exactly as they were and produces a trace consisting of log output only: no
vault write, no file creation or write, no vault read, and no external
identity-check command. -/
theorem dry_run_purity (argv : List Str) (env : Env) (w : World) (inp : Inputs)
    (hdry : dryRunOf (parseArgs argv) = true)
    (htok : lookupArg (parseArgs argv) (str "token") = none) :
    (runScript argv env w inp).1 = w ∧
      ∀ e ∈ (runScript argv env w inp).2.1, e = Effect.log := by
  have htokArg : tokenArgOf (parseArgs argv) = ArgVal.strV [] := by
    unfold tokenArgOf
    rw [htok]
  have hget : getToken (tokenArgOf (parseArgs argv)) (dryRunOf (parseArgs argv))
      inp.hiddenInput = TokenRes.ok (str "DRY_RUN_TOKEN") := by
    rw [htokArg, hdry]
    rfl
  unfold runScript
  cases hd : env.isDarwin with
  | false => simp
  | true =>
    simp only [hd, Bool.not_true, Bool.false_eq_true, if_false]
    by_cases hh : helpTruthyOf (parseArgs argv) = true
    · simp [hh]
    · rw [Bool.not_eq_true] at hh
      have hget' : getToken (tokenArgOf (parseArgs argv)) true inp.hiddenInput =
          TokenRes.ok (str "DRY_RUN_TOKEN") := by
        rw [htokArg]
        rfl
      have hsave : saveTokenStage true inp.vaultWriteOk (str "DRY_RUN_TOKEN") w =
          (w, [Effect.log], none) := rfl
      simp only [hh, Bool.false_eq_true, if_false, hdry, hget', Bool.not_true,
        Bool.false_and, hsave]
      obtain ⟨hw2, htr2⟩ := setupRcStage_dry env w
      rcases hst : setupRcStage env true w with ⟨w2, tr2, halt2⟩
      rw [hst] at hw2 htr2
      simp only at hw2 htr2
      cases halt2 with
      | some k =>
        dsimp only
        refine ⟨hw2, ?_⟩
        intro e he
        rcases List.mem_append.mp he with he | he
        · simpa using he
        · exact htr2 e he
      | none =>
        dsimp only
        have hnpm : setupNpmrcStage (orgOf (parseArgs argv)) true inp.homeWritable w2 =
            (w2, [Effect.log, Effect.log, Effect.log, Effect.log], none) := rfl
        rw [hnpm]
        have hval : validateStage true inp env = ([Effect.log, Effect.log], .exit 0) := rfl
        rw [hval]
        refine ⟨hw2, ?_⟩
        intro e he
        simp only [List.append_assoc, List.mem_append] at he
        rcases he with he | he | he | he
        · simpa using he
        · exact htr2 e he
        · simpa using he
        · simpa using he

theorem dry_run_purity_witness :
    (runScript [str "--dry-run"] ⟨true, str "zsh", false, none⟩
        ⟨some (str "export A=1"), some (str "x=y"), none⟩
        ⟨[], [], true, true, none, none⟩).1 =
      ⟨some (str "export A=1"), some (str "x=y"), none⟩ ∧
    ∀ e ∈ (runScript [str "--dry-run"] ⟨true, str "zsh", false, none⟩
        ⟨some (str "export A=1"), some (str "x=y"), none⟩
        ⟨[], [], true, true, none, none⟩).2.1, e = Effect.log :=
  dry_run_purity [str "--dry-run"] ⟨true, str "zsh", false, none⟩
    ⟨some (str "export A=1"), some (str "x=y"), none⟩
    ⟨[], [], true, true, none, none⟩ (by decide) (by decide)

/-- C5 (confirmed).  Whenever the acquired token trims to the empty string —
whether it came from a non-empty `--token` value that is all whitespace or
from empty interactive input (an explicitly empty `--token=` value diverts
to the interactive prompt, whose empty input is likewise fatal) — the
process exits with code 1, the world is unchanged, and the trace contains
no vault or file write and no external command, only log output.  (The
help-short-circuit hypothesis excludes invocations that never reach token
acquisition.) -/
theorem empty_token_fatal (argv : List Str) (env : Env) (w : World) (inp : Inputs)
    (hhelp : helpTruthyOf (parseArgs argv) = false)
    (hempty : getToken (tokenArgOf (parseArgs argv)) (dryRunOf (parseArgs argv))
      inp.hiddenInput = TokenRes.fatalEmpty) :
    (runScript argv env w inp).2.2 = ExitKind.exit 1 ∧
      (runScript argv env w inp).1 = w ∧
      ∀ e ∈ (runScript argv env w inp).2.1, e = Effect.log := by
  unfold runScript
  cases hd : env.isDarwin with
  | false => simp
  | true =>
    simp only [hd, Bool.not_true, Bool.false_eq_true, if_false, hhelp, hempty]
    refine ⟨?_, ?_, ?_⟩ <;> simp

theorem empty_token_fatal_witness :
    (runScript [] ⟨true, str "zsh", false, none⟩ ⟨none, none, none⟩
        ⟨str "   ", [], true, true, none, none⟩).2.2 = ExitKind.exit 1 ∧
      (runScript [] ⟨true, str "zsh", false, none⟩ ⟨none, none, none⟩
        ⟨str "   ", [], true, true, none, none⟩).1 = ⟨none, none, none⟩ ∧
      ∀ e ∈ (runScript [] ⟨true, str "zsh", false, none⟩ ⟨none, none, none⟩
        ⟨str "   ", [], true, true, none, none⟩).2.1, e = Effect.log :=
  empty_token_fatal [] ⟨true, str "zsh", false, none⟩ ⟨none, none, none⟩
    ⟨str "   ", [], true, true, none, none⟩ (by decide) (by decide)

/-- C7 (corrected).  On the supported platform, every invocation whose
*parsed* arguments make the `help` or `h` key truthy (`--help`, `--h`,
`--help=x`, ... — but not `-h`, which the parser ignores, and not the
degenerate `--help=` empty-value form) prints the usage line and exits
with code 0 before any token acquisition, vault write, file update or
verification. -/
theorem help_short_circuit (argv : List Str) (env : Env) (w : World) (inp : Inputs)
    (hd : env.isDarwin = true)
    (hh : helpTruthyOf (parseArgs argv) = true) :
    runScript argv env w inp = (w, [Effect.log], ExitKind.exit 0) := by
  unfold runScript
  simp [hd, hh]

theorem help_short_circuit_witness :
    runScript [str "--help"] ⟨true, str "zsh", false, none⟩ ⟨none, none, none⟩
        ⟨[], [], true, true, none, none⟩ =
      (⟨none, none, none⟩, [Effect.log], ExitKind.exit 0) :=
  help_short_circuit [str "--help"] ⟨true, str "zsh", false, none⟩ ⟨none, none, none⟩
    ⟨[], [], true, true, none, none⟩ rfl (by decide)

/-- C7 counterexample to the claim as frozen: the argument vector `["-h"]`
contains `-h`, but the parser only recognizes `--`-prefixed tokens, so the
run does not short-circuit with exit code 0; with empty interactive input
it proceeds to token acquisition and dies with exit code 1. -/
theorem help_short_circuit_counterexample :
    (runScript [str "-h"] ⟨true, str "zsh", false, none⟩ ⟨none, none, none⟩
        ⟨[], [], true, true, none, none⟩).2.2 = ExitKind.exit 1 ∧
      (runScript [str "-h"] ⟨true, str "zsh", false, none⟩ ⟨none, none, none⟩
        ⟨[], [], true, true, none, none⟩).2.2 ≠ ExitKind.exit 0 := by
  refine ⟨by decide, by decide⟩

/-- C8 (corrected).  During non-dry-run verification the secret is read back
from the vault, and the environment variable is consulted if and only if
the vault read *throws*; but the missing-credential fatal exit (code 1,
before the identity check) occurs exactly when the resolved secret is
empty: either the vault read succeeded with whitespace-only output (in
which case a non-empty environment variable does NOT rescue the run), or
the vault read failed and the environment variable is also empty. -/
theorem verifier_credential_sourcing (inp : Inputs) (env : Env) :
    (∀ s, inp.vaultReadResult = some s →
      getKeychainToken inp.vaultReadResult env.npmTokenEnv = jsTrim s) ∧
    (inp.vaultReadResult = none →
      getKeychainToken inp.vaultReadResult env.npmTokenEnv =
        env.npmTokenEnv.getD []) ∧
    ((getKeychainToken inp.vaultReadResult env.npmTokenEnv).isEmpty = true ↔
      ((∃ s, inp.vaultReadResult = some s ∧ jsTrim s = []) ∨
        (inp.vaultReadResult = none ∧ env.npmTokenEnv.getD [] = []))) ∧
    ((getKeychainToken inp.vaultReadResult env.npmTokenEnv).isEmpty = true →
      validateStage false inp env = ([Effect.vaultRead, Effect.log], ExitKind.exit 1)) := by
  refine ⟨?_, ?_, ?_, ?_⟩
  · intro s hs
    unfold getKeychainToken
    rw [hs]
  · intro hs
    unfold getKeychainToken
    rw [hs]
  · unfold getKeychainToken
    cases hv : inp.vaultReadResult with
    | none => simp [List.isEmpty_iff]
    | some s => simp [List.isEmpty_iff]
  · intro hs
    unfold validateStage
    simp [hs]

theorem verifier_credential_sourcing_witness :
    getKeychainToken (none : Option Str) (some (str "envtoken")) = str "envtoken" :=
  (verifier_credential_sourcing ⟨[], [], true, true, none, none⟩
    ⟨true, str "zsh", false, some (str "envtoken")⟩).2.1 rfl

/-- C8 counterexample to the claim as frozen: when the vault read *succeeds*
but returns whitespace-only output while the process environment holds the
non-empty value `x`, the verifier still exits fatally with code 1 — so it
is not the case that the fatal exit happens only when neither path yields a
non-empty secret. -/
theorem verifier_credential_counterexample :
    validateStage false ⟨[], [], true, true, some (str "   "), none⟩
        ⟨true, str "zsh", false, some (str "x")⟩ =
      ([Effect.vaultRead, Effect.log], ExitKind.exit 1) ∧
    (some (str "x") : Option Str).getD [] ≠ [] := by
  refine ⟨by decide, by decide⟩

/-- C10 (confirmed).  A `--token` flag supplied with no value — bare at the
end of the argument vector, or followed by another `--`-prefixed token —
makes the parser store the boolean `true` for the `token` key; token
acquisition then calls `.trim()` on that boolean, so the run terminates
with an uncaught TypeError (before any prompt, placeholder substitution,
log output, or write), instead of falling back to the interactive prompt
or the dry-run placeholder. -/
theorem bare_token_flag_type_error :
    lookupArg (parseArgs [str "--token"]) (str "token") = some ArgVal.flagTrue ∧
    lookupArg (parseArgs [str "--token", str "--dry-run"]) (str "token") =
      some ArgVal.flagTrue ∧
    (∀ (env : Env) (w : World) (inp : Inputs), env.isDarwin = true →
      runScript [str "--token"] env w inp = (w, [], ExitKind.typeError)) ∧
    (∀ (env : Env) (w : World) (inp : Inputs), env.isDarwin = true →
      runScript [str "--token", str "--dry-run"] env w inp =
        (w, [], ExitKind.typeError)) := by
  refine ⟨by decide, by decide, ?_, ?_⟩ <;>
  · intro env w inp hd
    unfold runScript
    simp only [hd, Bool.not_true, Bool.false_eq_true, if_false]
    rfl

theorem bare_token_flag_type_error_witness :
    runScript [str "--token"] ⟨true, str "zsh", false, none⟩ ⟨none, none, none⟩
        ⟨[], [], true, true, none, none⟩ =
      (⟨none, none, none⟩, [], ExitKind.typeError) :=
  bare_token_flag_type_error.2.2.1 ⟨true, str "zsh", false, none⟩ ⟨none, none, none⟩
    ⟨[], [], true, true, none, none⟩ rfl

end SetupNpmGithub
